import Mathlib

/-!
# Verification of the binder transaction engine (drivers/android/binder.c)

A shallow embedding of the parts of the binder driver that the spec's
claims are about: reference/handle allocation, the reply prologue of
`binder_transaction`, fixup validation for scatter-gather objects, the
async-transaction gating on nodes, the priority-inheritance rule, node
work servicing, the context-manager slot, the command-stream dispatch of
`binder_thread_write`, and the drain loop of `binder_thread_read`.

Machine integers are modelled as `Nat`/`Int`; user-space copies
(`copy_from_user`/`put_user`) are assumed to succeed, since their
failures only surface as `-EFAULT` on unreadable user memory, which none
of the claims concern.  The external buffer allocator, the fd table and
the security hooks are out of scope for the spec and appear only as
abstract success assumptions or parameters.
-/

namespace Binder

/-! ## Handle (desc) allocation — `binder_get_ref_for_node`

A process's references are kept in the `refs_by_desc` rb-tree; walking it
with `rb_first`/`rb_next` enumerates the handles in strictly increasing
order.  We model that in-order enumeration as a strictly sorted list of
naturals.  The allocation loop in `binder_get_ref_for_node` is:

    new_ref->data.desc = (node == context->binder_context_mgr_node) ? 0 : 1;
    for (n = rb_first(&proc->refs_by_desc); n != NULL; n = rb_next(n)) {
        ref = rb_entry(n, struct binder_ref, rb_node_desc);
        if (ref->data.desc > new_ref->data.desc)
            break;
        new_ref->data.desc = ref->data.desc + 1;
    }
-/

/-- The body of the desc-allocation walk of `binder_get_ref_for_node`:
`descs` is the in-order list of handles already allocated in the process,
`cand` the running candidate (`new_ref->data.desc`). -/
def alloc_desc_loop : List Nat → Nat → Nat
  | [], cand => cand
  | d :: rest, cand => if d > cand then cand else alloc_desc_loop rest (d + 1)

/-- `binder_get_ref_for_node`'s choice of handle for a fresh reference:
the walk starts at 0 for the context-manager node and at 1 otherwise. -/
def binder_get_ref_for_node_desc (isCtxMgrNode : Bool) (descs : List Nat) : Nat :=
  alloc_desc_loop descs (if isCtxMgrNode then 0 else 1)

/-- The allocation walk returns the least natural `≥ cand` that is not an
already-used handle, provided the handle list is strictly sorted and the
candidate is at most one past each listed handle (true of the starting
candidates 0 and 1, and preserved by the walk). -/
theorem alloc_desc_loop_least (descs : List Nat) (cand : Nat)
    (hsorted : descs.Pairwise (· < ·)) (hle : ∀ d ∈ descs, cand ≤ d + 1) :
    alloc_desc_loop descs cand ∉ descs ∧
    cand ≤ alloc_desc_loop descs cand ∧
    ∀ m, cand ≤ m → m < alloc_desc_loop descs cand → m ∈ descs := by
  induction descs generalizing cand with
  | nil =>
    refine ⟨by simp, le_refl _, ?_⟩
    intro m hm hm'
    simp only [alloc_desc_loop] at hm'
    omega
  | cons d rest ih =>
    rcases List.pairwise_cons.mp hsorted with ⟨hdlt, hrest⟩
    by_cases hd : d > cand
    · have hres : alloc_desc_loop (d :: rest) cand = cand := by
        simp [alloc_desc_loop, hd]
      refine ⟨?_, by rw [hres], ?_⟩
      · rw [hres]
        intro hmem
        rcases List.mem_cons.mp hmem with h | h
        · omega
        · exact absurd (hdlt _ h) (by omega)
      · intro m hm hm'
        rw [hres] at hm'
        omega
    · have hres : alloc_desc_loop (d :: rest) cand = alloc_desc_loop rest (d + 1) := by
        simp [alloc_desc_loop, hd]
      have hle' : ∀ e ∈ rest, d + 1 ≤ e + 1 := fun e he => by
        have := hdlt e he
        omega
      obtain ⟨h1, h2, h3⟩ := ih (d + 1) hrest hle'
      have hcd : cand ≤ d + 1 := hle d (List.mem_cons_self d rest)
      refine ⟨?_, ?_, ?_⟩
      · rw [hres]
        intro hmem
        rcases List.mem_cons.mp hmem with h | h
        · omega
        · exact h1 h
      · rw [hres]
        omega
      · intro m hm hm'
        rw [hres] at hm'
        by_cases hmd : m = d
        · exact List.mem_cons.mpr (Or.inl hmd)
        · have hm1 : d + 1 ≤ m := by omega
          exact List.mem_cons.mpr (Or.inr (h3 m hm1 hm'))

/-- C2: a reference freshly created by `binder_get_ref_for_node` receives
the smallest handle that is not already used in the process and is
positive — except that for the context-manager node the search starts at
handle 0.  In particular the new handle is distinct from every existing
handle, so handles within a process stay unique. -/
theorem binder_get_ref_for_node_desc_smallest_unused (isCtxMgrNode : Bool)
    (descs : List Nat) (hsorted : descs.Pairwise (· < ·)) :
    binder_get_ref_for_node_desc isCtxMgrNode descs ∉ descs ∧
    (isCtxMgrNode = false →
      1 ≤ binder_get_ref_for_node_desc isCtxMgrNode descs ∧
      ∀ m, 1 ≤ m → m < binder_get_ref_for_node_desc isCtxMgrNode descs →
        m ∈ descs) ∧
    (isCtxMgrNode = true →
      ∀ m, m < binder_get_ref_for_node_desc isCtxMgrNode descs → m ∈ descs) := by
  unfold binder_get_ref_for_node_desc
  cases isCtxMgrNode with
  | false =>
    have hle : ∀ d ∈ descs, 1 ≤ d + 1 := fun d _ => by omega
    obtain ⟨h1, h2, h3⟩ := alloc_desc_loop_least descs 1 hsorted hle
    exact ⟨by simpa using h1, fun _ => by simpa using ⟨h2, h3⟩, by simp⟩
  | true =>
    have hle : ∀ d ∈ descs, 0 ≤ d + 1 := fun d _ => by omega
    obtain ⟨h1, h2, h3⟩ := alloc_desc_loop_least descs 0 hsorted hle
    refine ⟨by simpa using h1, by simp, fun _ => ?_⟩
    intro m hm
    exact h3 m (Nat.zero_le m) (by simpa using hm)

/-- Witness for C2 at a concrete state: handles {0, 1, 3} held, ordinary
node: the fresh handle is 2, the smallest unused positive handle. -/
theorem binder_get_ref_for_node_desc_smallest_unused_witness :
    ([0, 1, 3] : List Nat).Pairwise (· < ·) ∧
    binder_get_ref_for_node_desc false [0, 1, 3] ∉ ([0, 1, 3] : List Nat) ∧
    binder_get_ref_for_node_desc false [0, 1, 3] = 2 := by
  have h := binder_get_ref_for_node_desc_smallest_unused false [0, 1, 3]
    (by decide)
  exact ⟨by decide, h.1, by decide⟩

/-! ## Reply target selection — `binder_transaction`, reply prologue
(binder.c:2348-2395)

For a `BC_REPLY`, `binder_transaction` takes `in_reply_to` from the top
of the sending thread's transaction stack, rejects if the stack is empty
or the top's `to_thread` is not this thread, *then pops the stack*
(`thread->transaction_stack = in_reply_to->to_parent`), resolves the
originating thread, and finally checks that the popped transaction is
the top of that thread's stack.  Transaction stacks are modelled as
lists with the head as the top (`to_parent`/`from_parent` links).
-/

/-- The fields of an in-flight transaction that the reply prologue
consults: the thread it was delivered to and the thread it came from
(`binder_get_txn_from`; `none` once the originator is torn down). -/
structure BTxn where
  debug_id : Nat
  toThread : Option Nat
  fromThread : Option Nat
deriving DecidableEq, Repr

/-- Outcome of the reply prologue. -/
inductive ReplyPrologue where
  | failedReply
  | deadReply
  | okReply (inReplyTo : BTxn)
deriving DecidableEq, Repr

/-- Reply prologue of `binder_transaction`: returns the outcome together
with the sending thread's transaction stack as the prologue leaves it.
`stackOf` gives the transaction stack of any other thread by pid. -/
def binder_reply_prologue (threadPid : Nat) (stack : List BTxn)
    (stackOf : Nat → List BTxn) : ReplyPrologue × List BTxn :=
  match stack with
  | [] => (.failedReply, [])
  | inReplyTo :: rest =>
    if inReplyTo.toThread ≠ some threadPid then
      (.failedReply, inReplyTo :: rest)
    else
      match inReplyTo.fromThread with
      | none => (.deadReply, rest)
      | some tpid =>
        if (stackOf tpid).head? ≠ some inReplyTo then
          (.failedReply, rest)
        else
          (.okReply inReplyTo, rest)

/-- C1 counterexample: a reply whose `in_reply_to` targets this thread
but is not the top of the originating thread's stack is rejected with
BR_FAILED_REPLY, yet the sender's transaction stack has been popped: it
is *not* left unchanged by the rejection. -/
theorem binder_reply_prologue_pops_on_target_mismatch :
    (binder_reply_prologue 1 [⟨10, some 1, some 2⟩] (fun _ => [])).1 =
      ReplyPrologue.failedReply ∧
    (binder_reply_prologue 1 [⟨10, some 1, some 2⟩] (fun _ => [])).2 ≠
      [⟨10, some 1, some 2⟩] := by
  constructor
  · rfl
  · decide

/-- C1 (amended): every failing reply prologue yields BR_FAILED_REPLY;
the sender's stack is untouched when the stack is empty or its top does
not target this thread, but when the top targets this thread and merely
mismatches the originating thread's stack top, the entry has already
been popped off the sender's stack. -/
theorem binder_reply_prologue_reject (threadPid : Nat) (stack : List BTxn)
    (stackOf : Nat → List BTxn) :
    (stack = [] →
      binder_reply_prologue threadPid stack stackOf =
        (ReplyPrologue.failedReply, stack)) ∧
    (∀ t rest, stack = t :: rest → t.toThread ≠ some threadPid →
      binder_reply_prologue threadPid stack stackOf =
        (ReplyPrologue.failedReply, stack)) ∧
    (∀ t rest tpid, stack = t :: rest → t.toThread = some threadPid →
      t.fromThread = some tpid → (stackOf tpid).head? ≠ some t →
      binder_reply_prologue threadPid stack stackOf =
        (ReplyPrologue.failedReply, rest)) := by
  refine ⟨?_, ?_, ?_⟩
  · intro h
    subst h
    rfl
  · intro t rest h ht
    subst h
    simp [binder_reply_prologue, ht]
  · intro t rest tpid h ht hf hm
    subst h
    simp [binder_reply_prologue, ht, hf, hm]

/-- Witness for C1's amended theorem at the concrete state of the
counterexample (third failure mode). -/
theorem binder_reply_prologue_reject_witness :
    binder_reply_prologue 1 [⟨10, some 1, some 2⟩] (fun _ => []) =
      (ReplyPrologue.failedReply, []) :=
  (binder_reply_prologue_reject 1 [⟨10, some 1, some 2⟩] (fun _ => [])).2.2
    ⟨10, some 1, some 2⟩ [] 2 rfl rfl rfl (by decide)

/-! ## Async transaction gating — `async_todo` and `has_async_transaction`

`binder_transaction` (binder.c:2779-2800) parks a one-way transaction on
the target node's `async_todo` when the node already has an async
transaction in flight; `binder_thread_write`'s BC_FREE_BUFFER handler
(binder.c:3079-3095) promotes the next queued entry when the async
buffer is freed.  Work items are modelled by ids; lists are FIFO with
the head first (`binder_enqueue_work_ilocked` is `list_add_tail`,
`binder_dequeue_work_head_ilocked` takes `list_first_entry_or_null`).
-/

/-- The async-relevant state of a node. -/
structure AsyncNode where
  hasAsync : Bool
  asyncTodo : List Nat
deriving DecidableEq, Repr

/-- BC_FREE_BUFFER fragment for a buffer with `async_transaction` set and
a non-null `target_node`: dequeue the head of the node's `async_todo`
and enqueue it on the freeing thread's todo, or clear
`has_async_transaction` when the queue is empty.  Returns the node and
the thread's todo list after the fragment. -/
def binder_free_buf_async (node : AsyncNode) (threadTodo : List Nat) :
    AsyncNode × List Nat :=
  match node.asyncTodo with
  | [] => ({ node with hasAsync := false }, threadTodo)
  | w :: rest => ({ node with asyncTodo := rest }, threadTodo ++ [w])

/-- One-way dispatch fragment of `binder_transaction`: if the target node
has an async transaction in flight the work is parked on its
`async_todo`, otherwise the flag is set and the work goes to the target
process's todo.  `procDead` is the `target_proc->is_dead` check made
between the flag update and the enqueue (BR_DEAD_REPLY on error). -/
def binder_async_dispatch (node : AsyncNode) (procTodo : List Nat)
    (w : Nat) (procDead : Bool) : Except Unit (AsyncNode × List Nat) :=
  if node.hasAsync then
    if procDead then .error ()
    else .ok ({ node with asyncTodo := node.asyncTodo ++ [w] }, procTodo)
  else
    let node' := { node with hasAsync := true }
    if procDead then .error ()
    else .ok (node', procTodo ++ [w])

/-- C4: freeing an async buffer promotes exactly the head entry of the
node's `async_todo` to the freeing thread's todo, or clears
`has_async_transaction` when the queue is empty; and an async send to a
node whose `has_async_transaction` is set is appended to the node's
`async_todo` while the process todo stays unchanged. -/
theorem binder_async_gating (node : AsyncNode) (threadTodo procTodo : List Nat)
    (w : Nat) :
    (∀ x rest, node.asyncTodo = x :: rest →
      binder_free_buf_async node threadTodo =
        ({ node with asyncTodo := rest }, threadTodo ++ [x])) ∧
    (node.asyncTodo = [] →
      binder_free_buf_async node threadTodo =
        ({ node with hasAsync := false }, threadTodo)) ∧
    (node.hasAsync = true →
      binder_async_dispatch node procTodo w false =
        .ok ({ node with asyncTodo := node.asyncTodo ++ [w] }, procTodo)) := by
  refine ⟨?_, ?_, ?_⟩
  · intro x rest h
    simp [binder_free_buf_async, h]
  · intro h
    simp [binder_free_buf_async, h]
  · intro h
    simp [binder_async_dispatch, h]

/-- Witness for C4 at a concrete state. -/
theorem binder_async_gating_witness :
    binder_free_buf_async ⟨true, [7, 8]⟩ [1] = (⟨true, [8]⟩, [1, 7]) ∧
    binder_free_buf_async ⟨true, []⟩ [1] = (⟨false, []⟩, [1]) ∧
    binder_async_dispatch ⟨true, [7]⟩ [2] 9 false = .ok (⟨true, [7, 9]⟩, [2]) := by
  have h := binder_async_gating ⟨true, [7, 8]⟩ [1] [2] 9
  have h' := binder_async_gating ⟨true, []⟩ [1] [2] 9
  have h'' := binder_async_gating ⟨true, [7]⟩ [2] [2] 9
  exact ⟨h.1 7 [8] rfl, h'.2.1 rfl, h''.2.2 rfl⟩

/-! ## Priority inheritance on delivery — `binder_thread_read`
(binder.c:3657-3669)

`binder_set_nice` (binder.c:924-940) sets the calling thread's nice when
the kernel's `can_nice` permits it and otherwise falls back to the
RLIMIT_NICE floor; `can_nice` and the floor belong to the out-of-scope
OS surface and are abstracted as the parameters `can` and `minNice`.
-/

/-- `binder_set_nice`: the nice value the thread ends up with. -/
def binder_set_nice (can : Int → Bool) (minNice : Int) (nice : Int) : Int :=
  if can nice then nice else minNice

/-- The delivery-side priority rule of `binder_thread_read` for a
transaction with a target node: `tPriority` is `t->priority` (the
sender's nice at send time), `cur` the receiving thread's current nice,
`minPriority` the target node's `min_priority`.  Returns
`t->saved_priority` (recorded before any change) and the receiving
thread's resulting nice. -/
def binder_read_apply_priority (can : Int → Bool) (minNice : Int)
    (minPriority : Int) (oneWay : Bool) (tPriority cur : Int) : Int × Int :=
  let saved := cur
  if tPriority < minPriority ∧ oneWay = false then
    (saved, binder_set_nice can minNice tPriority)
  else if oneWay = false ∨ saved > minPriority then
    (saved, binder_set_nice can minNice minPriority)
  else
    (saved, cur)

/-- C5: on delivery, when the sender's saved priority is better (lower
nice) than the node's `min_priority` and the call is synchronous, the
receiving thread's nice becomes the sender's priority; in every other
case the resulting nice is capped at (never worse than) the node's
`min_priority`; and the prior nice is saved on the transaction before
the change.  The hypotheses state that the OS permits the requested nice
values (`can_nice`). -/
theorem binder_read_apply_priority_rule (can : Int → Bool) (minNice : Int)
    (minPriority : Int) (oneWay : Bool) (tPriority cur : Int)
    (hct : can tPriority = true) (hcm : can minPriority = true) :
    (binder_read_apply_priority can minNice minPriority oneWay tPriority cur).1
      = cur ∧
    (tPriority < minPriority ∧ oneWay = false →
      (binder_read_apply_priority can minNice minPriority oneWay
        tPriority cur).2 = tPriority) ∧
    (¬(tPriority < minPriority ∧ oneWay = false) →
      (binder_read_apply_priority can minNice minPriority oneWay
        tPriority cur).2 ≤ minPriority) := by
  unfold binder_read_apply_priority binder_set_nice
  refine ⟨?_, ?_, ?_⟩
  · dsimp only
    split
    · rfl
    split <;> rfl
  · intro h
    simp [h, hct]
  · intro h
    by_cases h2 : oneWay = false ∨ cur > minPriority
    · simp [h, h2, hcm]
    · push_neg at h2
      obtain ⟨h2a, h2b⟩ := h2
      simp [h, h2a, hcm]
      split <;> omega

/-- Witness for C5 at concrete values: sender nice -5, node floor 0,
synchronous call, receiver at nice 3. -/
theorem binder_read_apply_priority_rule_witness :
    ((fun _ => true) (-5 : Int) = true) ∧
    (binder_read_apply_priority (fun _ => true) 20 0 false (-5) 3).2 = -5 := by
  have h := binder_read_apply_priority_rule (fun _ => true) 20 0 false (-5) 3
    rfl rfl
  exact ⟨rfl, h.2.1 (by constructor <;> decide)⟩

/-! ## Node work servicing — `binder_thread_read`, BINDER_WORK_NODE
(binder.c:3519-3605)

Servicing a node work item recomputes the strong/weak need from the
node's counters, drives the per-direction notification state machine
(`has_*_ref`/`pending_*_ref`, with a local ref taken to pin the node
while user space processes the notification), emits up to four records,
and unlinks and frees the node when both needs are zero.
`refsNonempty` models `!hlist_empty(&node->refs)`.
-/

/-- The counters and notification state of a node consulted by the
BINDER_WORK_NODE case. -/
structure NodeWorkState where
  internalStrong : Nat
  localStrong : Nat
  localWeak : Nat
  tmpRefs : Nat
  refsNonempty : Bool
  hasStrong : Bool
  hasWeak : Bool
  pendingStrong : Bool
  pendingWeak : Bool
deriving DecidableEq, Repr

/-- The four user-visible node records. -/
inductive NodeCmd where
  | increfs | acquire | release | decrefs
deriving DecidableEq, Repr

/-- `strong = node->internal_strong_refs || node->local_strong_refs`. -/
def nodeStrongNeed (n : NodeWorkState) : Bool :=
  n.internalStrong != 0 || n.localStrong != 0

/-- `weak = !hlist_empty(&node->refs) || node->local_weak_refs ||
node->tmp_refs || strong`. -/
def nodeWeakNeed (n : NodeWorkState) : Bool :=
  n.refsNonempty || n.localWeak != 0 || n.tmpRefs != 0 || nodeStrongNeed n

/-- The BINDER_WORK_NODE case of `binder_thread_read`: returns the node
state after servicing (`none` when the node was unlinked from
`proc->nodes` and freed) and the emitted records. -/
def binder_work_node (n : NodeWorkState) : Option NodeWorkState × List NodeCmd :=
  let strong := nodeStrongNeed n
  let weak := nodeWeakNeed n
  let hasS := n.hasStrong
  let hasW := n.hasWeak
  let n1 := if weak && !hasW then
      { n with hasWeak := true, pendingWeak := true,
               localWeak := n.localWeak + 1 }
    else n
  let n2 := if strong && !hasS then
      { n1 with hasStrong := true, pendingStrong := true,
                localStrong := n1.localStrong + 1 }
    else n1
  let n3 := if !strong && hasS then { n2 with hasStrong := false } else n2
  let n4 := if !weak && hasW then { n3 with hasWeak := false } else n3
  let node' := if !weak && !strong then none else some n4
  let cmds :=
    (if weak && !hasW then [NodeCmd.increfs] else []) ++
    (if strong && !hasS then [NodeCmd.acquire] else []) ++
    (if !strong && hasS then [NodeCmd.release] else []) ++
    (if !weak && hasW then [NodeCmd.decrefs] else [])
  (node', cmds)

/-- C6: servicing a BINDER_WORK_NODE item emits a subsequence of
[INCREFS, ACQUIRE, RELEASE, DECREFS] — hence at most four records,
always in that order; the node is unlinked and freed exactly when both
the strong and the weak need computed from its counters are zero; and
the per-direction notification state is updated: a new weak (resp.
strong) need sets `has_*`/`pending_*` and takes a local ref, a vanished
need clears the `has_*` bit. -/
theorem binder_work_node_rule (n : NodeWorkState) :
    (binder_work_node n).2.Sublist
      [NodeCmd.increfs, NodeCmd.acquire, NodeCmd.release, NodeCmd.decrefs] ∧
    (binder_work_node n).2.length ≤ 4 ∧
    ((binder_work_node n).1 = none ↔
      (nodeStrongNeed n = false ∧ nodeWeakNeed n = false)) ∧
    (nodeWeakNeed n = true → n.hasWeak = false →
      NodeCmd.increfs ∈ (binder_work_node n).2 ∧
      ∀ n', (binder_work_node n).1 = some n' →
        n'.hasWeak = true ∧ n'.pendingWeak = true ∧
        n'.localWeak = n.localWeak + 1) ∧
    (nodeStrongNeed n = true → n.hasStrong = false →
      NodeCmd.acquire ∈ (binder_work_node n).2 ∧
      ∀ n', (binder_work_node n).1 = some n' →
        n'.hasStrong = true ∧ n'.pendingStrong = true ∧
        n'.localStrong = n.localStrong + 1) ∧
    (nodeStrongNeed n = false → n.hasStrong = true →
      NodeCmd.release ∈ (binder_work_node n).2 ∧
      ∀ n', (binder_work_node n).1 = some n' → n'.hasStrong = false) ∧
    (nodeWeakNeed n = false → n.hasWeak = true →
      NodeCmd.decrefs ∈ (binder_work_node n).2) := by
  have hws : nodeStrongNeed n = true → nodeWeakNeed n = true := by
    intro h
    simp [nodeWeakNeed, h]
  cases hs : nodeStrongNeed n <;> cases hw : nodeWeakNeed n <;>
    cases hhs : n.hasStrong <;> cases hhw : n.hasWeak <;>
    simp_all [binder_work_node]

/-- Witness for C6 at a concrete node: only a tmp ref outstanding, no
notifications yet — weak need only, so exactly one INCREFS record. -/
theorem binder_work_node_rule_witness :
    nodeWeakNeed ⟨0, 0, 0, 1, false, false, false, false, false⟩ = true ∧
    NodeCmd.increfs ∈
      (binder_work_node ⟨0, 0, 0, 1, false, false, false, false, false⟩).2 := by
  have h := binder_work_node_rule ⟨0, 0, 0, 1, false, false, false, false, false⟩
  exact ⟨by decide, (h.2.2.2.1 (by decide) rfl).1⟩

/-! ## Context manager slot — `binder_ioctl_set_ctx_mgr` and
`binder_deferred_release` (binder.c:4030-4075, 4397-4405)

`binder_new_node` returns a node with zero local refs and clear
`has_strong_ref`/`has_weak_ref`; the SET_CONTEXT_MGR handler then
inflates both local refs and presets both `has_*` bits before
publishing the node in the context's slot.  `securityOk` abstracts the
`security_binder_set_context_mgr` hook; the out-of-memory path of
`binder_new_node` is not modelled.
-/

/-- The context-manager node as created by the SET_CONTEXT_MGR path. -/
structure CtxMgrNode where
  owner : Nat
  localStrong : Nat
  localWeak : Nat
  hasStrong : Bool
  hasWeak : Bool
deriving DecidableEq, Repr

/-- The per-context state guarded by `context_mgr_node_lock`. -/
structure BContext where
  mgrNode : Option CtxMgrNode
  mgrUid : Option Nat
deriving DecidableEq, Repr

/-- `binder_ioctl_set_ctx_mgr`: fails with -EBUSY while the slot is
occupied, then runs the security hook and the uid check, then creates
the manager node with inflated local refs and preset has bits. -/
def binder_ioctl_set_ctx_mgr (ctx : BContext) (pid currEuid : Nat)
    (securityOk : Bool) : Except Int BContext :=
  if ctx.mgrNode.isSome then .error (-16)
  else if securityOk = false then .error (-1)
  else
    match ctx.mgrUid with
    | some uid =>
      if uid ≠ currEuid then .error (-1)
      else .ok { ctx with mgrNode := some ⟨pid, 1, 1, true, true⟩ }
    | none =>
      .ok { mgrNode := some ⟨pid, 1, 1, true, true⟩, mgrUid := some currEuid }

/-- The context-manager fragment of `binder_deferred_release`: when the
released process owns the manager node, clear the slot (the recorded
uid is kept). -/
def binder_deferred_release_ctx (ctx : BContext) (pid : Nat) : BContext :=
  match ctx.mgrNode with
  | some node => if node.owner = pid then { ctx with mgrNode := none } else ctx
  | none => ctx

/-- C7: a SET_CONTEXT_MGR while the slot is occupied fails with -EBUSY;
a successful claim installs a node with inflated local refs and
`has_strong_ref`/`has_weak_ref` preset; and releasing the manager's
owning process clears the slot, after which the role is claimable again
(by a requester the security hook and uid check admit). -/
theorem binder_ctx_mgr_slot (ctx : BContext) (pid pid2 currEuid : Nat)
    (securityOk : Bool) :
    (∀ node, ctx.mgrNode = some node →
      binder_ioctl_set_ctx_mgr ctx pid currEuid securityOk = .error (-16)) ∧
    (ctx.mgrNode = none → securityOk = true →
      (ctx.mgrUid = none ∨ ctx.mgrUid = some currEuid) →
      ∃ ctx', binder_ioctl_set_ctx_mgr ctx pid currEuid securityOk = .ok ctx' ∧
        ctx'.mgrNode = some ⟨pid, 1, 1, true, true⟩) ∧
    (∀ node, ctx.mgrNode = some node → node.owner = pid →
      (binder_deferred_release_ctx ctx pid).mgrNode = none ∧
      ∃ ctx', binder_ioctl_set_ctx_mgr (binder_deferred_release_ctx ctx pid)
          pid2 currEuid true = .ok ctx' ∨
        (ctx.mgrUid ≠ none ∧ ctx.mgrUid ≠ some currEuid ∧
          binder_ioctl_set_ctx_mgr (binder_deferred_release_ctx ctx pid)
            pid2 currEuid true = .error (-1) ∧ ctx' = ctx)) := by
  refine ⟨?_, ?_, ?_⟩
  · intro node h
    simp [binder_ioctl_set_ctx_mgr, h]
  · intro h hsec huid
    rcases huid with h' | h' <;>
      simp [binder_ioctl_set_ctx_mgr, h, hsec, h']
  · intro node h howner
    have hrel : (binder_deferred_release_ctx ctx pid).mgrNode = none := by
      simp [binder_deferred_release_ctx, h, howner]
    refine ⟨hrel, ?_⟩
    rcases hu : ctx.mgrUid with _ | uid
    · refine ⟨⟨some ⟨pid2, 1, 1, true, true⟩, some currEuid⟩, Or.inl ?_⟩
      simp [binder_ioctl_set_ctx_mgr, binder_deferred_release_ctx, h, howner, hu]
    · by_cases he : uid = currEuid
      · refine ⟨⟨some ⟨pid2, 1, 1, true, true⟩, some uid⟩, Or.inl ?_⟩
        simp [binder_ioctl_set_ctx_mgr, binder_deferred_release_ctx, h, howner,
          hu, he]
      · refine ⟨ctx, Or.inr ⟨by simp [hu], by simp [hu, he], ?_, rfl⟩⟩
        simp [binder_ioctl_set_ctx_mgr, binder_deferred_release_ctx, h, howner,
          hu, he]

/-- Witness for C7: an occupied slot rejects a second claimant; after
release the same-uid requester succeeds. -/
theorem binder_ctx_mgr_slot_witness :
    binder_ioctl_set_ctx_mgr ⟨some ⟨3, 1, 1, true, true⟩, some 0⟩ 4 0 true =
      .error (-16) ∧
    (binder_deferred_release_ctx ⟨some ⟨3, 1, 1, true, true⟩, some 0⟩ 3).mgrNode
      = none := by
  have h := binder_ctx_mgr_slot ⟨some ⟨3, 1, 1, true, true⟩, some 0⟩ 3 4 0 true
  exact ⟨h.1 ⟨3, 1, 1, true, true⟩ rfl, (h.2.2 ⟨3, 1, 1, true, true⟩ rfl rfl).1⟩

/-! ## Command-stream dispatch — `binder_thread_write`
(binder.c:2888-3339)

The write loop consumes one tagged command at a time.  Every recognized
command's case ends in `break` (handler-level user errors are logged and
skipped), except BC_ATTEMPT_ACQUIRE and BC_ACQUIRE_RESULT which
`return -EINVAL`, and the `default` case which also `return -EINVAL`.
Commands are modelled already parsed (a `get_user` fault would be
-EFAULT on unreadable memory, outside the claims).
-/

/-- The command tags of the `binder_thread_write` switch;
`unknownCmd` stands for any tag outside the recognized set. -/
inductive BC where
  | increfs | acquire | release | decrefs
  | increfsDone | acquireDone
  | attemptAcquire | acquireResult
  | freeBuffer | transactionSg | replySg | transaction | reply
  | registerLooper | enterLooper | exitLooper
  | requestDeathNotification | clearDeathNotification | deadBinderDone
  | unknownCmd (code : Nat)
deriving DecidableEq, Repr

/-- Control effect of one command on the write loop: `none` = handled
(`break`, continue with the next command), `some e` = the whole write
returns errno `e` immediately. -/
def binder_write_step : BC → Option Int
  | .attemptAcquire => some (-22)
  | .acquireResult => some (-22)
  | .unknownCmd _ => some (-22)
  | _ => none

/-- The write loop of `binder_thread_write` over a parsed command
stream: returns the number of fully consumed commands (`*consumed` is
advanced only after a command's case completes) and the fatal errno, if
any. -/
def binder_thread_write_loop : List BC → Nat × Option Int
  | [] => (0, none)
  | c :: rest =>
    match binder_write_step c with
    | some e => (0, some e)
    | none =>
      let r := binder_thread_write_loop rest
      (r.1 + 1, r.2)

/-- C8: BC_ATTEMPT_ACQUIRE, BC_ACQUIRE_RESULT and every unrecognized
command tag are fatal: the write returns -EINVAL, consuming only the
commands before the offender and processing none after it — the command
is not skipped. -/
theorem binder_thread_write_fatal (cmds rest : List BC) (c : BC)
    (hok : ∀ x ∈ cmds, binder_write_step x = none)
    (hc : c = BC.attemptAcquire ∨ c = BC.acquireResult ∨
      ∃ code, c = BC.unknownCmd code) :
    binder_write_step c = some (-22) ∧
    binder_thread_write_loop (cmds ++ c :: rest) = (cmds.length, some (-22)) := by
  have hstep : binder_write_step c = some (-22) := by
    rcases hc with h | h | ⟨code, h⟩ <;> subst h <;> rfl
  refine ⟨hstep, ?_⟩
  induction cmds with
  | nil =>
    simp [binder_thread_write_loop, hstep]
  | cons x xs ih =>
    have hx : binder_write_step x = none := hok x (List.mem_cons_self x xs)
    have hxs : ∀ y ∈ xs, binder_write_step y = none := fun y hy =>
      hok y (List.mem_cons_of_mem x hy)
    simp [binder_thread_write_loop, hx, ih hxs]

/-- Witness for C8: a stream with one valid command followed by an
unknown tag fails with -EINVAL after consuming one command. -/
theorem binder_thread_write_fatal_witness :
    binder_thread_write_loop [BC.increfs, BC.unknownCmd 99] = (1, some (-22)) := by
  have h := binder_thread_write_fatal [BC.increfs] [] (BC.unknownCmd 99)
    (by intro x hx; simp at hx; subst hx; rfl) (Or.inr (Or.inr ⟨99, rfl⟩))
  simpa using h.2

/-! ## Read drain loop — `binder_thread_read` (binder.c:3458-3735)

The drain loop dequeues work items and emits records until the list is
exhausted or a terminating item is serviced.  A transaction ends the
loop (`break` at line 3734); a DEAD_BINDER (also DEAD_BINDER_AND_CLEAR,
which emits the same BR_DEAD_BINDER record) moves the registration to
the process's delivered-death list and then jumps to `done`
(line 3649-3650), while the other work types fall through and keep
draining.  Node records are abstracted as a single marker since only
the control flow is at issue here.
-/

/-- Work-item types serviced by the drain loop. -/
inductive RWork where
  | workTransaction
  | workReturnError
  | workTransactionComplete
  | workNode
  | workDeadBinder
  | workDeadBinderAndClear
  | workClearDeathNotification
deriving DecidableEq, Repr

/-- Records streamed back to user space by the drain loop. -/
inductive ReadRec where
  | brTransaction | brError | brTransactionComplete | brNodeRecords
  | brDeadBinder | brClearDeathNotificationDone
deriving DecidableEq, Repr

/-- The drain loop: returns the emitted records, the work items left
unprocessed on the todo list, and the delivered-death list. -/
def binder_read_drain (todo : List RWork) (delivered : List RWork) :
    List ReadRec × List RWork × List RWork :=
  match todo with
  | [] => ([], [], delivered)
  | w :: rest =>
    match w with
    | .workTransaction => ([.brTransaction], rest, delivered)
    | .workReturnError =>
      let r := binder_read_drain rest delivered
      (.brError :: r.1, r.2.1, r.2.2)
    | .workTransactionComplete =>
      let r := binder_read_drain rest delivered
      (.brTransactionComplete :: r.1, r.2.1, r.2.2)
    | .workNode =>
      let r := binder_read_drain rest delivered
      (.brNodeRecords :: r.1, r.2.1, r.2.2)
    | .workDeadBinder =>
      ([.brDeadBinder], rest, delivered ++ [w])
    | .workDeadBinderAndClear =>
      ([.brDeadBinder], rest, delivered ++ [w])
    | .workClearDeathNotification =>
      let r := binder_read_drain rest delivered
      (.brClearDeathNotificationDone :: r.1, r.2.1, r.2.2)

/-- C9: servicing a DEAD_BINDER work item emits BR_DEAD_BINDER, moves
the registration to the delivered-death list, and ends the read with
the remaining queued work untouched; the other non-transaction work
types keep draining. -/
theorem binder_read_drain_dead_binder_stops (rest delivered : List RWork) :
    binder_read_drain (RWork.workDeadBinder :: rest) delivered =
      ([ReadRec.brDeadBinder], rest, delivered ++ [RWork.workDeadBinder]) ∧
    (binder_read_drain (RWork.workTransactionComplete :: rest) delivered).1 =
      ReadRec.brTransactionComplete ::
        (binder_read_drain rest delivered).1 ∧
    (binder_read_drain (RWork.workReturnError :: rest) delivered).1 =
      ReadRec.brError :: (binder_read_drain rest delivered).1 ∧
    (binder_read_drain (RWork.workNode :: rest) delivered).1 =
      ReadRec.brNodeRecords :: (binder_read_drain rest delivered).1 ∧
    (binder_read_drain (RWork.workClearDeathNotification :: rest) delivered).1 =
      ReadRec.brClearDeathNotificationDone ::
        (binder_read_drain rest delivered).1 := by
  refine ⟨rfl, rfl, rfl, rfl, rfl⟩

/-! ## Reference adjustment commands — BC_INCREFS / BC_ACQUIRE /
BC_RELEASE / BC_DECREFS (binder.c:2911-2972)

The handler first tries `binder_inc_ref_for_node` on the context-manager
node when the command is an increment on handle 0 (creating the
reference on demand), and otherwise falls back to
`binder_update_ref_for_handle` (binder.c:1512-1539); a failure there is
logged as a user error and the command is skipped — the case always ends
in `break`.  The holder process's state is modelled as its reference
list (in `refs_by_desc` order) plus the counters of the referenced
nodes; owner-side work enqueueing and node freeing are outside the
holder model.
-/

/-- A reference held by the process (`struct binder_ref_data` plus the
target node id). -/
structure BRef where
  desc : Nat
  nodeId : Nat
  strong : Nat
  weak : Nat
deriving DecidableEq, Repr

/-- The counters of a referenced node that the internal inc/dec paths
consult.  `workQueued` models `!list_empty(&node->work.entry)`. -/
structure NodeCnt where
  internalStrong : Nat
  hasStrong : Bool
  hasWeak : Bool
  workQueued : Bool
deriving DecidableEq, Repr

/-- The holder process's reference state. -/
structure RefProcState where
  refs : List BRef
  nodes : List (Nat × NodeCnt)
  ctxMgrNodeId : Option Nat
deriving DecidableEq, Repr

/-- Node-counter lookup by node id. -/
def getNodeCnt (nodes : List (Nat × NodeCnt)) (nid : Nat) : Option NodeCnt :=
  (nodes.find? (fun e => e.1 == nid)).map (·.2)

/-- Node-counter update by node id. -/
def setNodeCnt (nodes : List (Nat × NodeCnt)) (nid : Nat) (c : NodeCnt) :
    List (Nat × NodeCnt) :=
  nodes.map (fun e => if e.1 == nid then (nid, c) else e)

/-- `node->internal_strong_refs++`. -/
def bumpStrong (c : NodeCnt) : NodeCnt :=
  { c with internalStrong := c.internalStrong + 1 }

/-- `node->internal_strong_refs--`. -/
def dropStrong (c : NodeCnt) : NodeCnt :=
  { c with internalStrong := c.internalStrong - 1 }

/-- `binder_inc_node` for an internal (reference-held) increment with a
NULL `target_list`, the form used by the BC reference commands: a
strong 0→1 transition is only allowed for the context-manager node with
`has_strong_ref` already set, and a weak increment needs the owner
already notified (`has_weak_ref`) or node work already queued. -/
def binder_inc_node_internal (s : RefProcState) (nid : Nat) (strong : Bool) :
    Except Int RefProcState :=
  match getNodeCnt s.nodes nid with
  | none => .error (-22)
  | some c =>
    if strong then
      if c.internalStrong = 0 ∧
          ¬(s.ctxMgrNodeId = some nid ∧ c.hasStrong = true) then .error (-22)
      else .ok { s with nodes := setNodeCnt s.nodes nid (bumpStrong c) }
    else
      if c.hasWeak = false ∧ c.workQueued = false then .error (-22)
      else .ok s

/-- `binder_dec_node` for an internal decrement, at the holder-visible
counter level (the owner-side notification and free bookkeeping of
`binder_dec_node_nilocked` does not change the holder's state). -/
def binder_dec_node_internal (s : RefProcState) (nid : Nat) (strong : Bool) :
    RefProcState :=
  if strong then
    match getNodeCnt s.nodes nid with
    | none => s
    | some c => { s with nodes := setNodeCnt s.nodes nid (dropStrong c) }
  else s

/-- `binder_get_ref` (binder.c:1218-1239): look up a reference by
handle; a weak-only reference does not satisfy a strong lookup. -/
def binder_get_ref (refs : List BRef) (desc : Nat) (needStrong : Bool) :
    Option BRef :=
  match refs.find? (fun r => r.desc == desc) with
  | none => none
  | some r => if needStrong = true ∧ r.strong = 0 then none else some r

/-- Replace the reference with handle `r'.desc` by `r'`. -/
def updateRef (refs : List BRef) (r' : BRef) : List BRef :=
  refs.map (fun x => if x.desc == r'.desc then r' else x)

/-- `binder_inc_ref` with a NULL target list: a 0→1 count transition
increments the node first; on node failure nothing changes. -/
def binder_inc_ref (s : RefProcState) (r : BRef) (strong : Bool) :
    Except Int (RefProcState × BRef) :=
  if strong then
    if r.strong = 0 then
      match binder_inc_node_internal s r.nodeId true with
      | .error e => .error e
      | .ok s' => .ok (s', { r with strong := r.strong + 1 })
    else .ok (s, { r with strong := r.strong + 1 })
  else
    if r.weak = 0 then
      match binder_inc_node_internal s r.nodeId false with
      | .error e => .error e
      | .ok s' => .ok (s', { r with weak := r.weak + 1 })
    else .ok (s, { r with weak := r.weak + 1 })

/-- `binder_dec_ref`: decrement one count (an underflow is logged as a
user error and changes nothing); a strong 1→0 transition decrements the
node, and when both counts reach zero the reference is cleaned out of
the indexes and freed.  Returns the state and the user-error flag. -/
def binder_dec_ref (s : RefProcState) (r : BRef) (strong : Bool) :
    RefProcState × Bool :=
  if strong then
    if r.strong = 0 then (s, true)
    else
      let r' : BRef := { r with strong := r.strong - 1 }
      let s' := if r'.strong = 0 then binder_dec_node_internal s r.nodeId true
        else s
      if r'.strong = 0 ∧ r'.weak = 0 then
        ({ s' with refs := s'.refs.filter (fun x => x.desc ≠ r.desc) }, false)
      else ({ s' with refs := updateRef s'.refs r' }, false)
  else
    if r.weak = 0 then (s, true)
    else
      let r' : BRef := { r with weak := r.weak - 1 }
      if r'.strong = 0 ∧ r'.weak = 0 then
        ({ s with refs := s.refs.filter (fun x => x.desc ≠ r.desc) }, false)
      else ({ s with refs := updateRef s.refs r' }, false)

/-- `binder_update_ref_for_handle`: -EINVAL when the process holds no
matching reference, else the requested inc/dec; the decrement path
returns 0 even when an underflow was logged. -/
def binder_update_ref_for_handle (s : RefProcState) (desc : Nat)
    (increment strong : Bool) : RefProcState × Except Int Nat :=
  match binder_get_ref s.refs desc strong with
  | none => (s, .error (-22))
  | some r =>
    if increment then
      match binder_inc_ref s r strong with
      | .error e => (s, .error e)
      | .ok (s', r') => ({ s' with refs := updateRef s'.refs r' }, .ok r'.desc)
    else
      ((binder_dec_ref s r strong).1, .ok r.desc)

/-- Ordered insertion into the `refs_by_desc` list. -/
def insertRefByDesc (r : BRef) : List BRef → List BRef
  | [] => [r]
  | x :: xs => if r.desc < x.desc then r :: x :: xs else x :: insertRefByDesc r xs

/-- `binder_inc_ref_for_node` (binder.c:1572-1598): look up the ref by
target node, create it with a freshly allocated handle if absent
(`binder_get_ref_for_node` links the zero-count ref into the indexes
before the increment runs), then increment it. -/
def binder_inc_ref_for_node (s : RefProcState) (nid : Nat) (strong : Bool) :
    RefProcState × Except Int Nat :=
  match s.refs.find? (fun r => r.nodeId == nid) with
  | some r =>
    match binder_inc_ref s r strong with
    | .error e => (s, .error e)
    | .ok (s', r') => ({ s' with refs := updateRef s'.refs r' }, .ok r'.desc)
  | none =>
    let desc := binder_get_ref_for_node_desc
      (decide (s.ctxMgrNodeId = some nid)) (s.refs.map (·.desc))
    let r : BRef := ⟨desc, nid, 0, 0⟩
    let s1 := { s with refs := insertRefByDesc r s.refs }
    match binder_inc_ref s1 r strong with
    | .error e => (s1, .error e)
    | .ok (s', r') => ({ s' with refs := updateRef s'.refs r' }, .ok r'.desc)

/-- The BC_INCREFS/BC_ACQUIRE/BC_RELEASE/BC_DECREFS case of
`binder_thread_write`: an increment on handle 0 goes to the
context-manager node first (creating the reference on demand), anything
else through `binder_update_ref_for_handle`; a failure is logged as a
user error and the command is skipped.  Returns the state and the
user-error flag; the case never returns a fatal error. -/
def bc_ref_command (s : RefProcState) (target : Nat)
    (increment strong : Bool) : RefProcState × Bool :=
  let first :=
    if increment = true ∧ target = 0 then
      match s.ctxMgrNodeId with
      | some nid => binder_inc_ref_for_node s nid strong
      | none => (s, .error (-1))
    else (s, .error (-1))
  match first.2 with
  | .ok _ => (first.1, false)
  | .error _ =>
    let second := binder_update_ref_for_handle first.1 target increment strong
    match second.2 with
    | .ok _ => (second.1, false)
    | .error _ => (second.1, true)

/-- A fresh reference created by the handler ends up in the list. -/
theorem mem_insertRefByDesc (r : BRef) (l : List BRef) :
    r ∈ insertRefByDesc r l := by
  induction l with
  | nil => simp [insertRefByDesc]
  | cons x xs ih =>
    by_cases h : r.desc < x.desc <;> simp [insertRefByDesc, h, ih]

/-- A reference keeping the handle of `r'` is replaced by `r'`. -/
theorem mem_updateRef_self (l : List BRef) (x r' : BRef) (hx : x ∈ l)
    (h : x.desc = r'.desc) : r' ∈ updateRef l r' := by
  unfold updateRef
  refine List.mem_map.mpr ⟨x, hx, ?_⟩
  simp [h]

/-- C10: a BC_INCREFS or BC_ACQUIRE on handle 0 succeeds even when the
process holds no prior reference, provided a context-manager node
exists (its `has_strong_ref`/`has_weak_ref` are preset at creation):
the reference is created on demand with the requested count at 1.
Conversely a BC_RELEASE or BC_DECREFS naming a handle the process holds
no reference for is logged as a user error and skipped with no state
change, and the command case is never fatal for the write loop. -/
theorem bc_ref_command_rule (s : RefProcState) (nid : Nat) (c : NodeCnt)
    (strong : Bool) (hctx : s.ctxMgrNodeId = some nid)
    (hnode : getNodeCnt s.nodes nid = some c)
    (hhs : c.hasStrong = true) (hhw : c.hasWeak = true)
    (hnoref : s.refs.find? (fun r => r.nodeId == nid) = none) :
    ((bc_ref_command s 0 true strong).2 = false ∧
      ∃ r, r ∈ (bc_ref_command s 0 true strong).1.refs ∧ r.nodeId = nid ∧
        r.strong = (if strong then 1 else 0) ∧
        r.weak = (if strong then 0 else 1)) ∧
    (∀ target, s.refs.find? (fun r => r.desc == target) = none →
      bc_ref_command s target false strong = (s, true)) ∧
    binder_write_step BC.release = none ∧
    binder_write_step BC.decrefs = none := by
  refine ⟨?_, ?_, rfl, rfl⟩
  · have hincnode : ∀ (refs' : List BRef) (st : Bool),
        binder_inc_node_internal { s with refs := refs' } nid st =
          .ok { s with
                refs := refs',
                nodes := if st then setNodeCnt s.nodes nid (bumpStrong c)
                  else s.nodes } := by
      intro refs' st
      cases st <;> simp [binder_inc_node_internal, hnode, hctx, hhs, hhw]
    have hrun : bc_ref_command s 0 true strong =
        ({ s with
            refs := updateRef
              (insertRefByDesc
                ⟨binder_get_ref_for_node_desc
                  (decide (s.ctxMgrNodeId = some nid)) (s.refs.map (·.desc)),
                  nid, 0, 0⟩ s.refs)
              ⟨binder_get_ref_for_node_desc
                (decide (s.ctxMgrNodeId = some nid)) (s.refs.map (·.desc)),
                nid, if strong then 1 else 0, if strong then 0 else 1⟩,
            nodes := if strong then setNodeCnt s.nodes nid (bumpStrong c)
              else s.nodes }, false) := by
      simp only [hctx] at hincnode
      cases strong <;>
        simp [bc_ref_command, binder_inc_ref_for_node, hctx, hnoref,
          binder_inc_ref, hincnode]
    rw [hrun]
    refine ⟨rfl, ⟨⟨binder_get_ref_for_node_desc
        (decide (s.ctxMgrNodeId = some nid)) (s.refs.map (·.desc)),
        nid, if strong then 1 else 0, if strong then 0 else 1⟩, ?_, rfl, rfl,
        rfl⟩⟩
    exact mem_updateRef_self _
      ⟨binder_get_ref_for_node_desc (decide (s.ctxMgrNodeId = some nid))
        (s.refs.map (·.desc)), nid, 0, 0⟩ _
      (mem_insertRefByDesc _ s.refs) rfl
  · intro target htarget
    simp [bc_ref_command, binder_update_ref_for_handle, binder_get_ref, htarget]

/-- Witness for C10: a process with no references and a context-manager
node (id 5, has bits preset) acquires handle 0 on demand; releasing an
unknown handle 3 is skipped with the state unchanged. -/
theorem bc_ref_command_rule_witness :
    (bc_ref_command ⟨[], [(5, ⟨0, true, true, false⟩)], some 5⟩ 0 true true).2
      = false ∧
    bc_ref_command ⟨[], [(5, ⟨0, true, true, false⟩)], some 5⟩ 3 false true =
      (⟨[], [(5, ⟨0, true, true, false⟩)], some 5⟩, true) := by
  have h := bc_ref_command_rule ⟨[], [(5, ⟨0, true, true, false⟩)], some 5⟩ 5
    ⟨0, true, true, false⟩ true rfl rfl rfl rfl rfl
  exact ⟨h.1.1, h.2.1 3 rfl⟩

/-! ## Scatter-gather fixup validation — `binder_validate_ptr`,
`binder_validate_fixup`, `binder_fixup_parent` and the object loop of
`binder_transaction` (binder.c:1807-1888, 2264-2310, 2609-2756)

Objects are identified by their index in the offsets array; a
`binder_buffer_object`'s `parent` field is such an index.  The fd
translation itself (fd table, security hook) is an out-of-scope external
interface and is modelled as succeeding; its failure takes the same
unwind path as a fixup failure.  The `(last_fixup_obj, last_fixup_min_off)`
cursor is carried across the loop exactly as in the source.  On any
failure the driver releases the partially translated buffer and frees it
(`err_translate_failed`/`err_bad_parent` paths, binder.c:2821-2830), so a
failed transaction leaves no buffer installed in the target:
`TxnOutcome.failedReplyFreed` stands for BR_FAILED_REPLY with the buffer
released and freed. -/

/-- The fields of a `binder_buffer_object` (BINDER_TYPE_PTR) the fixup
logic consults. -/
structure PtrFields where
  hasParent : Bool
  parent : Nat
  parentOffset : Nat
  length : Nat
deriving DecidableEq, Repr

/-- An object listed in the offsets array.  `plainObj` stands for the
types that carry no fixup (BINDER/WEAK_BINDER/HANDLE/WEAK_HANDLE/FD). -/
inductive BObj where
  | ptrObj (f : PtrFields)
  | fdaObj (parent : Nat) (parentOffset : Nat) (numFds : Nat)
  | plainObj
deriving DecidableEq, Repr

/-- `binder_validate_ptr`: the object at offset-array index `index` is a
valid parent if the index is below the number of already-verified
offsets and the object is a buffer object. -/
def binder_validate_ptr (objs : List BObj) (index numValid : Nat) :
    Option PtrFields :=
  if index < numValid then
    match objs.get? index with
    | some (.ptrObj f) => some f
    | _ => none
  else none

/-- `binder_validate_fixup`: walk up the parent chain from `lastObj`
(the most recently fixed-up buffer object) until reaching `buffer`,
accumulating the minimum allowed fixup offset; the fixup is allowed when
`buffer` is found on the chain and `fixupOffset` is at least the minimum
recorded there.  The C while-loop terminates because verified parents
have strictly smaller indices; `fuel` (instantiated with the object
count) makes that explicit. -/
def binder_validate_fixup (objs : List BObj) (buffer fixupOffset : Nat) :
    Option Nat → Nat → Nat → Bool
  | none, _, _ => false
  | some l, lastMin, fuel =>
    if l = buffer then decide (lastMin ≤ fixupOffset)
    else
      match fuel with
      | 0 => false
      | fuel' + 1 =>
        match objs.get? l with
        | some (.ptrObj f) =>
          if f.hasParent then
            binder_validate_fixup objs buffer fixupOffset (some f.parent)
              (f.parentOffset + 8) fuel'
          else false
        | _ => false

/-- `binder_fixup_parent`: nothing to do without the HAS_PARENT flag;
otherwise validate the parent and the fixup order, then check the
parent has room for the 8-byte pointer patch at `parentOffset`. -/
def binder_fixup_parent (objs : List BObj) (idx : Nat) (f : PtrFields)
    (cur : Option Nat × Nat) : Bool :=
  if f.hasParent = false then true
  else
    match binder_validate_ptr objs f.parent idx with
    | none => false
    | some pf =>
      if binder_validate_fixup objs f.parent f.parentOffset cur.1 cur.2
          objs.length then
        decide (8 ≤ pf.length ∧ f.parentOffset ≤ pf.length - 8)
      else false

/-- `ALIGN(n, sizeof(u64))`. -/
def alignUp8 (n : Nat) : Nat := ((n + 7) / 8) * 8

/-- The object-translation loop of `binder_transaction`.  `pending` is
the remaining suffix of the offsets array (`objs.drop idx`), `sgLeft`
the room left in the extra-buffers region, `cur` the
`(last_fixup_obj, last_fixup_min_off)` cursor.  The result carries the
fixup trace of the remaining objects: one `(parent, offset, size)`
entry per patch performed into a parent buffer (8 bytes for a pointer
fixup, `4 * numFds` bytes for an fd array). -/
def binder_translate_loop (objs : List BObj) :
    List BObj → Nat → Nat → Option Nat × Nat →
    Except Unit (List (Nat × Nat × Nat))
  | [], _, _, _ => .ok []
  | o :: rest, idx, sgLeft, cur =>
    match o with
    | .plainObj => binder_translate_loop objs rest (idx + 1) sgLeft cur
    | .fdaObj par poff n =>
      match binder_validate_ptr objs par idx with
      | none => .error ()
      | some pf =>
        if binder_validate_fixup objs par poff cur.1 cur.2 objs.length then
          if 4 * n ≤ pf.length ∧ poff ≤ pf.length - 4 * n ∧ poff % 4 = 0 then
            (binder_translate_loop objs rest (idx + 1) sgLeft
              (some par, poff + 4 * n)).map
              (fun t => (par, poff, 4 * n) :: t)
          else .error ()
        else .error ()
    | .ptrObj f =>
      if f.length ≤ sgLeft then
        if binder_fixup_parent objs idx f cur then
          (binder_translate_loop objs rest (idx + 1)
            (sgLeft - alignUp8 f.length) (some idx, 0)).map
            (fun t => (if f.hasParent then [(f.parent, f.parentOffset, 8)]
              else []) ++ t)
        else .error ()
      else .error ()

/-- Outcome of `binder_transaction` as far as buffer installation is
concerned: `failedReplyFreed` is the error path that releases the
partial translation, frees the buffer and reports BR_FAILED_REPLY. -/
inductive TxnOutcome where
  | delivered
  | failedReplyFreed
deriving DecidableEq, Repr

/-- The translation stage of `binder_transaction` for a payload whose
offsets array lists `objs` and whose extra-buffers region has `sgSize`
bytes. -/
def binder_transaction_translate (objs : List BObj) (sgSize : Nat) :
    TxnOutcome :=
  match binder_translate_loop objs objs 0 sgSize (none, 0) with
  | .ok _ => .delivered
  | .error _ => .failedReplyFreed

/-- The ancestor chain of `lastObj` that `binder_validate_fixup` can
walk: the object itself, then its parent chain. -/
def fixupChain (objs : List BObj) : Option Nat → Nat → List Nat
  | none, _ => []
  | some l, fuel =>
    l :: (match fuel with
      | 0 => []
      | fuel' + 1 =>
        match objs.get? l with
        | some (.ptrObj f) =>
          if f.hasParent then fixupChain objs (some f.parent) fuel' else []
        | _ => [])

/-- The per-parent order the fixup cursor enforces: the next fixup into
the same parent starts at or after the previous fixup's offset plus its
size. -/
def fixupLe (a b : Nat × Nat × Nat) : Prop := a.2.1 + a.2.2 ≤ b.2.1

/-- The minimum offset the `(last_fixup_obj, last_fixup_min_off)` chain
records for a parent `p`: walk the parent chain from `l` with running
minimum `m`, as `binder_validate_fixup` does, and return the minimum at
the first occurrence of `p`.  The walk refuses a parent link that does
not decrease the index — verified parents always do. -/
def chainLookupW (objs : List BObj) (p l m : Nat) : Option Nat :=
  if l = p then some m
  else
    match objs.get? l with
    | some (.ptrObj f) =>
      if h : f.hasParent = true ∧ f.parent < l then
        chainLookupW objs p f.parent (f.parentOffset + 8)
      else none
    | _ => none
termination_by l
decreasing_by exact h.2

/-- A successful chain lookup only ever finds indices at or below the
walk's start. -/
theorem chainLookupW_le (objs : List BObj) (p : Nat) :
    ∀ l m m', chainLookupW objs p l m = some m' → p ≤ l := by
  intro l
  induction l using Nat.strong_induction_on with
  | _ l ih =>
    intro m m' h
    unfold chainLookupW at h
    split at h
    · omega
    · split at h
      · split at h
        · rename_i f _ hcond
          exact le_trans (ih f.parent hcond.2 _ _ h) (le_of_lt hcond.2)
        · exact absurd h (by simp)
      · exact absurd h (by simp)

/-- The running minimum is irrelevant for lookups of any index other
than the walk's start. -/
theorem chainLookupW_min_irrel (objs : List BObj) (p l m₁ m₂ : Nat)
    (h : l ≠ p) : chainLookupW objs p l m₁ = chainLookupW objs p l m₂ := by
  rw [chainLookupW, chainLookupW]
  simp [h]

/-- Lookups below a chain member pass through it: once the walk from
`l` reaches `par`, the continuation is determined by `par`'s own
fields, so a lookup of any strictly smaller index can as well start at
`par` (with an arbitrary running minimum). -/
theorem chainLookupW_through (objs : List BObj) (par : Nat) :
    ∀ l cm ms, chainLookupW objs par l cm = some ms →
      ∀ q anyM, q < par → chainLookupW objs q l cm =
        chainLookupW objs q par anyM := by
  intro l
  induction l using Nat.strong_induction_on with
  | _ l ih =>
    intro cm ms h q anyM hq
    by_cases hl : l = par
    · subst hl
      exact chainLookupW_min_irrel objs q l cm anyM (by omega)
    · have hple : par ≤ l := chainLookupW_le objs par l cm ms h
      rw [chainLookupW] at h
      rw [chainLookupW]
      simp only [hl, if_false] at h
      have hlq : ¬(l = q) := by omega
      simp only [hlq, if_false]
      revert h
      split
      · rename_i f hf
        split
        · rename_i hcond
          intro h
          exact ih f.parent hcond.2 _ _ h q anyM hq
        · intro h
          exact absurd h (by simp)
      · intro h
        exact absurd h (by simp)

/-- A lookup above a chain's start finds nothing. -/
theorem chainLookupW_none_of_gt (objs : List BObj) (p l m : Nat)
    (h : l < p) : chainLookupW objs p l m = none := by
  cases hc : chainLookupW objs p l m with
  | none => rfl
  | some ms => exact absurd (chainLookupW_le objs p l m ms hc) (by omega)

/-- A successful `binder_validate_fixup` determines a chain lookup: the
fixup target is on the cursor chain, with recorded minimum at most the
fixup offset.  `hwfp` states that every already-translated buffer
object's parent link decreases the index, which the translation loop
guarantees through `binder_validate_ptr`. -/
theorem validate_fixup_lookup (objs : List BObj) (buffer off idx : Nat)
    (hwfp : ∀ j f, j < idx → objs.get? j = some (.ptrObj f) →
      f.hasParent = true → f.parent < j) :
    ∀ fuel l m, l < idx →
      binder_validate_fixup objs buffer off (some l) m fuel = true →
      ∃ ms, chainLookupW objs buffer l m = some ms ∧ ms ≤ off := by
  intro fuel
  induction fuel with
  | zero =>
    intro l m hl h
    simp only [binder_validate_fixup] at h
    by_cases hb : l = buffer
    · simp only [hb, if_true, decide_eq_true_eq] at h
      refine ⟨m, ?_, h⟩
      rw [chainLookupW]
      simp [hb]
    · simp [hb] at h
  | succ fuel' ih =>
    intro l m hl h
    simp only [binder_validate_fixup] at h
    by_cases hb : l = buffer
    · simp only [hb, if_true, decide_eq_true_eq] at h
      refine ⟨m, ?_, h⟩
      rw [chainLookupW]
      simp [hb]
    · simp only [hb, if_false] at h
      revert h
      split
      · rename_i f hg
        split
        · rename_i hpar
          intro h
          have hplt : f.parent < l := hwfp l f hl hg hpar
          obtain ⟨ms, hms, hoff⟩ := ih f.parent (f.parentOffset + 8)
            (lt_trans hplt hl) h
          refine ⟨ms, ?_, hoff⟩
          rw [chainLookupW, if_neg hb, hg]
          dsimp only
          rw [dif_pos ⟨hpar, hplt⟩]
          exact hms
        · intro h
          exact absurd h (by simp)
      · intro h
        exact absurd h (by simp)

/-- A successful `binder_validate_fixup` finds the target on the
ancestor chain of the most recently fixed-up object. -/
theorem validate_fixup_mem_chain (objs : List BObj) (buffer off : Nat) :
    ∀ fuel lopt m,
      binder_validate_fixup objs buffer off lopt m fuel = true →
      buffer ∈ fixupChain objs lopt fuel := by
  intro fuel
  induction fuel with
  | zero =>
    intro lopt m h
    cases lopt with
    | none => simp [binder_validate_fixup] at h
    | some l =>
      by_cases hb : l = buffer
      · simp [fixupChain, hb]
      · simp [binder_validate_fixup, hb] at h
  | succ fuel' ih =>
    intro lopt m h
    cases lopt with
    | none => simp [binder_validate_fixup] at h
    | some l =>
      by_cases hb : l = buffer
      · simp [fixupChain, hb]
      · simp only [binder_validate_fixup, hb, if_false] at h
        revert h
        split
        · rename_i f hg
          split
          · rename_i hpar
            intro h
            have hmem := ih (some f.parent) (f.parentOffset + 8) h
            simp only [fixupChain]
            rw [hg]
            simp only [hpar, if_true]
            exact List.mem_cons_of_mem l hmem
          · intro h
            exact absurd h (by simp)
        · intro h
          exact absurd h (by simp)

/-- The minimum the cursor records for `p`, over the optional cursor. -/
def curLookup (objs : List BObj) (cur : Option Nat × Nat) (p : Nat) :
    Option Nat :=
  match cur.1 with
  | none => none
  | some l => chainLookupW objs p l cur.2

/-- One fixup step: when the cursor chain from `(l, cur2)` records
minimum `ms ≤ poffE` for `par` and the fixup `(par, poffE, sizeE)` is
performed (moving the cursor to `(par, poffE + sizeE)`), the per-parent
facts about the future trace `Δ'` relative to the new cursor transfer
to `(par, poffE, sizeE) :: Δ'` relative to the old cursor. -/
theorem fixup_step_spec (objs : List BObj) (idx l cur2 par poffE sizeE ms : Nat)
    (dl : List (Nat × Nat × Nat))
    (hms : chainLookupW objs par l cur2 = some ms)
    (hmsoff : ms ≤ poffE)
    (hlidx : l < idx) (hparlt : par < idx)
    (h1' : ∀ p msp, p < idx →
      chainLookupW objs p par (poffE + sizeE) = some msp →
      ∀ e ∈ dl, e.1 = p → msp ≤ e.2.1)
    (h2' : ∀ p, p < idx →
      chainLookupW objs p par (poffE + sizeE) = none → ∀ e ∈ dl, e.1 ≠ p)
    (h3' : ∀ p, (dl.filter (fun e => e.1 == p)).Pairwise fixupLe) :
    (∀ p msp, chainLookupW objs p l cur2 = some msp →
      ∀ e ∈ (par, poffE, sizeE) :: dl, e.1 = p → msp ≤ e.2.1) ∧
    (∀ p, p < idx → chainLookupW objs p l cur2 = none →
      ∀ e ∈ (par, poffE, sizeE) :: dl, e.1 ≠ p) ∧
    (∀ p, (((par, poffE, sizeE) :: dl).filter (fun e => e.1 == p)).Pairwise
      fixupLe) := by
  have hselfnew : chainLookupW objs par par (poffE + sizeE) =
      some (poffE + sizeE) := by
    rw [chainLookupW]
    simp
  have hheadle : ∀ e ∈ dl, e.1 = par → poffE + sizeE ≤ e.2.1 :=
    h1' par (poffE + sizeE) hparlt hselfnew
  refine ⟨?_, ?_, ?_⟩
  · intro p msp hlook e he hep
    rcases List.mem_cons.mp he with heq | hmem
    · have hp : p = par := by rw [heq] at hep; exact hep.symm
      subst hp
      have hmm : msp = ms := Option.some.inj (hlook.symm.trans hms)
      rw [heq]
      simpa using le_trans (le_of_eq hmm) hmsoff
    · by_cases hpp : p = par
      · subst hpp
        have hmm : msp = ms := Option.some.inj (hlook.symm.trans hms)
        have hge := h1' p (poffE + sizeE) hparlt hselfnew e hmem hep
        omega
      · rcases Nat.lt_or_ge p par with hlt | hge
        · have heq2 := chainLookupW_through objs par l cur2 ms hms p
            (poffE + sizeE) hlt
          exact h1' p msp (by omega) (heq2 ▸ hlook) e hmem hep
        · have hgt : par < p := by omega
          have hnone := chainLookupW_none_of_gt objs p par (poffE + sizeE) hgt
          have hple : p ≤ l := chainLookupW_le objs p l cur2 msp hlook
          exact absurd hep (h2' p (by omega) hnone e hmem)
  · intro p hp hlooknone e he
    rcases List.mem_cons.mp he with heq | hmem
    · intro hep
      rw [heq] at hep
      simp only at hep
      rw [← hep] at hlooknone
      rw [hms] at hlooknone
      exact absurd hlooknone (by simp)
    · by_cases hpp : p = par
      · subst hpp
        rw [hms] at hlooknone
        exact absurd hlooknone (by simp)
      · rcases Nat.lt_or_ge p par with hlt | hge
        · have heq2 := chainLookupW_through objs par l cur2 ms hms p
            (poffE + sizeE) hlt
          exact h2' p (by omega) (heq2 ▸ hlooknone) e hmem
        · have hgt : par < p := by omega
          exact h2' p (by omega)
            (chainLookupW_none_of_gt objs p par (poffE + sizeE) hgt) e hmem
  · intro p
    by_cases hpp : par = p
    · subst hpp
      rw [List.filter_cons]
      simp only [beq_self_eq_true, if_true]
      refine List.Pairwise.cons ?_ (h3' par)
      intro e hef
      have hm := List.mem_filter.mp hef
      exact hheadle e hm.1 (by simpa using hm.2)
    · rw [List.filter_cons]
      have : (((par, poffE, sizeE) : Nat × Nat × Nat).1 == p) = false := by
        simpa using hpp
      simp only [this, Bool.false_eq_true, if_false]
      exact h3' p

/-- Splitting a `drop` that yields a cons: the head is the element at
`idx` and the tail is the next drop. -/
theorem drop_cons_facts {α : Type} (objs : List α) :
    ∀ idx (o : α) rest, objs.drop idx = o :: rest →
      objs.get? idx = some o ∧ objs.drop (idx + 1) = rest := by
  induction objs with
  | nil =>
    intro idx o rest h
    simp at h
  | cons x xs ih =>
    intro idx o rest h
    cases idx with
    | zero =>
      simp at h
      simp [h.1, h.2]
    | succ n =>
      simp only [List.drop_succ_cons] at h
      obtain ⟨h1, h2⟩ := ih n o rest h
      exact ⟨by simpa using h1, by simpa using h2⟩

/-- The translation loop's fixup order: relative to the current cursor,
(1) every future fixup into a chain parent `p` starts at or after the
chain's recorded minimum for `p`; (2) no future fixup targets an
already-translated object off the chain; (3) within each parent, the
future fixups are weakly monotone (`fixupLe`-pairwise). -/
theorem translate_loop_fixup_spec (objs : List BObj) :
    ∀ (pending : List BObj) (idx sg : Nat) (cur : Option Nat × Nat)
      (t : List (Nat × Nat × Nat)),
      pending = objs.drop idx →
      (∀ j f, j < idx → objs.get? j = some (.ptrObj f) →
        f.hasParent = true → f.parent < j) →
      (∀ l, cur.1 = some l → l < idx) →
      binder_translate_loop objs pending idx sg cur = .ok t →
      (∀ p ms, curLookup objs cur p = some ms →
        ∀ e ∈ t, e.1 = p → ms ≤ e.2.1) ∧
      (∀ p, p < idx → curLookup objs cur p = none → ∀ e ∈ t, e.1 ≠ p) ∧
      (∀ p, (t.filter (fun e => e.1 == p)).Pairwise fixupLe) := by
  intro pending
  induction pending with
  | nil =>
    intro idx sg cur t hpend hwfp hcur hok
    simp only [binder_translate_loop] at hok
    injection hok with h
    subst h
    refine ⟨?_, ?_, ?_⟩ <;> simp
  | cons o rest ih =>
    intro idx sg cur t hpend hwfp hcur hok
    obtain ⟨hget, hrest⟩ := drop_cons_facts objs idx o rest hpend.symm
    cases o with
    | plainObj =>
      simp only [binder_translate_loop] at hok
      have hwfp' : ∀ j f, j < idx + 1 → objs.get? j = some (.ptrObj f) →
          f.hasParent = true → f.parent < j := by
        intro j f hj hgj hpj
        rcases Nat.lt_succ_iff_lt_or_eq.mp hj with h | h
        · exact hwfp j f h hgj hpj
        · subst h
          rw [hget] at hgj
          exact absurd hgj (by simp)
      have hcur' : ∀ l, cur.1 = some l → l < idx + 1 := fun l hl =>
        Nat.lt_succ_of_lt (hcur l hl)
      obtain ⟨h1, h2, h3⟩ := ih (idx + 1) sg cur t hrest.symm hwfp' hcur' hok
      exact ⟨h1, fun p hp => h2 p (by omega), h3⟩
    | fdaObj par poff n =>
      simp only [binder_translate_loop] at hok
      cases hvp : binder_validate_ptr objs par idx with
      | none =>
        rw [hvp] at hok
        exact absurd hok (by simp)
      | some pf =>
        rw [hvp] at hok
        dsimp only at hok
        by_cases hval : binder_validate_fixup objs par poff cur.1 cur.2
            objs.length = true
        case neg => simp [hval] at hok
        rw [if_pos hval] at hok
        by_cases hbnd : 4 * n ≤ pf.length ∧ poff ≤ pf.length - 4 * n ∧
            poff % 4 = 0
        case neg => rw [if_neg hbnd] at hok; exact absurd hok (by simp)
        rw [if_pos hbnd] at hok
        cases hloop : binder_translate_loop objs rest (idx + 1) sg
            (some par, poff + 4 * n) with
        | error e =>
          rw [hloop] at hok
          simp [Except.map] at hok
        | ok dl =>
          rw [hloop] at hok
          simp only [Except.map] at hok
          have ht : t = (par, poff, 4 * n) :: dl := by
            injection hok with h
            exact h.symm
          subst ht
          have hparlt : par < idx := by
            by_contra hc
            simp [binder_validate_ptr, hc] at hvp
          have hwfp' : ∀ j f, j < idx + 1 → objs.get? j = some (.ptrObj f) →
              f.hasParent = true → f.parent < j := by
            intro j f hj hgj hpj
            rcases Nat.lt_succ_iff_lt_or_eq.mp hj with h | h
            · exact hwfp j f h hgj hpj
            · subst h
              rw [hget] at hgj
              exact absurd hgj (by simp)
          have hcur' : ∀ l', (some par, poff + 4 * n).1 = some l' →
              l' < idx + 1 := by
            intro l' hl'
            simp only at hl'
            injection hl' with h
            omega
          obtain ⟨h1', h2', h3'⟩ := ih (idx + 1) sg (some par, poff + 4 * n)
            dl hrest.symm hwfp' hcur' hloop
          cases hc1 : cur.1 with
          | none =>
            rw [hc1] at hval
            simp [binder_validate_fixup] at hval
          | some l =>
            have hlidx : l < idx := hcur l hc1
            rw [hc1] at hval
            obtain ⟨ms, hms, hmsoff⟩ := validate_fixup_lookup objs par poff
              idx hwfp objs.length l cur.2 hlidx hval
            have h1'' : ∀ p msp, p < idx →
                chainLookupW objs p par (poff + 4 * n) = some msp →
                ∀ e ∈ dl, e.1 = p → msp ≤ e.2.1 := by
              intro p msp _ hlk
              exact h1' p msp (by simpa [curLookup] using hlk)
            have h2'' : ∀ p, p < idx →
                chainLookupW objs p par (poff + 4 * n) = none →
                ∀ e ∈ dl, e.1 ≠ p := by
              intro p hp hlk
              exact h2' p (by omega) (by simpa [curLookup] using hlk)
            have hstep := fixup_step_spec objs idx l cur.2 par poff (4 * n)
              ms dl hms hmsoff hlidx hparlt h1'' h2'' h3'
            refine ⟨?_, ?_, hstep.2.2⟩
            · intro p msp hlk e he hep
              exact hstep.1 p msp (by simpa [curLookup, hc1] using hlk) e he hep
            · intro p hp hlk e he
              exact hstep.2.1 p hp (by simpa [curLookup, hc1] using hlk) e he
    | ptrObj f =>
      simp only [binder_translate_loop] at hok
      by_cases hsg : f.length ≤ sg
      case neg => rw [if_neg hsg] at hok; exact absurd hok (by simp)
      rw [if_pos hsg] at hok
      by_cases hfix : binder_fixup_parent objs idx f cur = true
      case neg => simp [hfix] at hok
      rw [if_pos hfix] at hok
      cases hloop : binder_translate_loop objs rest (idx + 1)
          (sg - alignUp8 f.length) (some idx, 0) with
      | error e =>
        rw [hloop] at hok
        simp [Except.map] at hok
      | ok dl =>
        rw [hloop] at hok
        simp only [Except.map] at hok
        have hcur' : ∀ l', ((some idx, 0) : Option Nat × Nat).1 = some l' →
            l' < idx + 1 := by
          intro l' hl'
          simp only at hl'
          injection hl' with h
          omega
        by_cases hhp : f.hasParent = true
        · -- pointer object with a parent: one 8-byte fixup is performed
          rw [if_pos hhp] at hok
          have ht : t = (f.parent, f.parentOffset, 8) :: dl := by
            injection hok with h
            exact h.symm
          subst ht
          simp only [binder_fixup_parent, hhp] at hfix
          cases hvp : binder_validate_ptr objs f.parent idx with
          | none =>
            rw [hvp] at hfix
            simp at hfix
          | some pf =>
            rw [hvp] at hfix
            dsimp only at hfix
            by_cases hval : binder_validate_fixup objs f.parent f.parentOffset
                cur.1 cur.2 objs.length = true
            case neg => simp [hval] at hfix
            have hparlt : f.parent < idx := by
              by_contra hc
              simp [binder_validate_ptr, hc] at hvp
            have hwfp' : ∀ j f0, j < idx + 1 →
                objs.get? j = some (.ptrObj f0) →
                f0.hasParent = true → f0.parent < j := by
              intro j f0 hj hgj hpj
              rcases Nat.lt_succ_iff_lt_or_eq.mp hj with h | h
              · exact hwfp j f0 h hgj hpj
              · subst h
                rw [hget] at hgj
                injection hgj with h2
                injection h2 with h3
                rw [← h3]
                exact hparlt
            obtain ⟨h1', h2', h3'⟩ := ih (idx + 1) (sg - alignUp8 f.length)
              (some idx, 0) dl hrest.symm hwfp' hcur' hloop
            cases hc1 : cur.1 with
            | none =>
              rw [hc1] at hval
              simp [binder_validate_fixup] at hval
            | some l =>
              have hlidx : l < idx := hcur l hc1
              rw [hc1] at hval
              obtain ⟨ms, hms, hmsoff⟩ := validate_fixup_lookup objs f.parent
                f.parentOffset idx hwfp objs.length l cur.2 hlidx hval
              have hstep0 : ∀ p, p ≠ idx → chainLookupW objs p idx 0 =
                  chainLookupW objs p f.parent (f.parentOffset + 8) := by
                intro p hp
                rw [chainLookupW, if_neg (fun h => hp h.symm), hget]
                dsimp only
                rw [dif_pos ⟨hhp, hparlt⟩]
              have h1'' : ∀ p msp, p < idx →
                  chainLookupW objs p f.parent (f.parentOffset + 8) =
                    some msp →
                  ∀ e ∈ dl, e.1 = p → msp ≤ e.2.1 := by
                intro p msp hp hlk
                apply h1' p msp
                simp only [curLookup]
                rw [hstep0 p (by omega)]
                exact hlk
              have h2'' : ∀ p, p < idx →
                  chainLookupW objs p f.parent (f.parentOffset + 8) = none →
                  ∀ e ∈ dl, e.1 ≠ p := by
                intro p hp hlk
                apply h2' p (by omega)
                simp only [curLookup]
                rw [hstep0 p (by omega)]
                exact hlk
              have hstep := fixup_step_spec objs idx l cur.2 f.parent
                f.parentOffset 8 ms dl hms hmsoff hlidx hparlt h1'' h2'' h3'
              refine ⟨?_, ?_, hstep.2.2⟩
              · intro p msp hlk e he hep
                exact hstep.1 p msp (by simpa [curLookup, hc1] using hlk)
                  e he hep
              · intro p hp hlk e he
                exact hstep.2.1 p hp (by simpa [curLookup, hc1] using hlk) e he
        · -- pointer object without a parent: no fixup, cursor resets
          have hhp' : f.hasParent = false := by
            revert hhp
            cases f.hasParent <;> simp
          rw [if_neg hhp] at hok
          simp only [List.nil_append] at hok
          have ht : t = dl := by
            injection hok with h
            exact h.symm
          subst ht
          have hwfp' : ∀ j f0, j < idx + 1 →
              objs.get? j = some (.ptrObj f0) →
              f0.hasParent = true → f0.parent < j := by
            intro j f0 hj hgj hpj
            rcases Nat.lt_succ_iff_lt_or_eq.mp hj with h | h
            · exact hwfp j f0 h hgj hpj
            · subst h
              rw [hget] at hgj
              injection hgj with h2
              injection h2 with h3
              rw [← h3] at hpj
              rw [hhp'] at hpj
              exact absurd hpj (by simp)
          obtain ⟨h1', h2', h3'⟩ := ih (idx + 1) (sg - alignUp8 f.length)
            (some idx, 0) t hrest.symm hwfp' hcur' hloop
          have hnone : ∀ p, p ≠ idx → chainLookupW objs p idx 0 = none := by
            intro p hp
            rw [chainLookupW, if_neg (fun h => hp h.symm), hget]
            dsimp only
            rw [dif_neg (fun hcond => by
              rw [hhp'] at hcond
              exact absurd hcond.1 (by simp))]
          refine ⟨?_, ?_, h3'⟩
          · intro p msp hlk e he hep
            cases hc1 : cur.1 with
            | none => simp [curLookup, hc1] at hlk
            | some l =>
              have hlidx : l < idx := hcur l hc1
              simp only [curLookup, hc1] at hlk
              have hple : p ≤ l := chainLookupW_le objs p l cur.2 msp hlk
              have := h2' p (by omega) (by
                simp only [curLookup]
                exact hnone p (by omega)) e he
              exact absurd hep this
          · intro p hp hlk e he
            exact h2' p (by omega) (by
              simp only [curLookup]
              exact hnone p (by omega)) e he

/-- C3 counterexample: two fd-array objects with `num_fds = 0` fix up
the same parent at the same offset and the transaction is accepted
(`binder_translate_fd_array` allows an empty array, and the cursor
minimum advances by `4 * num_fds = 0`); the claimed strictly-increasing
per-parent order is violated by the resulting fixup trace. -/
theorem binder_fixup_equal_offsets_accepted :
    binder_translate_loop
      [.ptrObj ⟨false, 0, 0, 0⟩, .fdaObj 0 0 0, .fdaObj 0 0 0]
      [.ptrObj ⟨false, 0, 0, 0⟩, .fdaObj 0 0 0, .fdaObj 0 0 0] 0 0 (none, 0) =
      .ok [(0, 0, 0), (0, 0, 0)] ∧
    binder_transaction_translate
      [.ptrObj ⟨false, 0, 0, 0⟩, .fdaObj 0 0 0, .fdaObj 0 0 0] 0 =
      .delivered ∧
    ¬ ((([((0 : Nat), (0 : Nat), (0 : Nat)), (0, 0, 0)] :
        List (Nat × Nat × Nat)).filter
        (fun e => e.1 == 0)).Chain' (fun a b => a.2.1 < b.2.1)) := by
  refine ⟨rfl, rfl, fun h => ?_⟩
  rw [show (([((0 : Nat), (0 : Nat), (0 : Nat)), (0, 0, 0)] :
    List (Nat × Nat × Nat)).filter (fun e => e.1 == 0)) =
    [(0, 0, 0), (0, 0, 0)] from rfl] at h
  exact Nat.lt_irrefl 0 (List.chain'_cons.mp h).1

/-- C3 (amended): translation succeeds only if each fixup's parent is
the most recently fixed-up object or one of its ancestors (the target
of a passing `binder_validate_fixup` lies on the cursor's ancestor
chain), and each fixup within the same parent starts at or above the
previous fixup's offset plus that fixup's size — strictly higher
whenever the previous fixup is non-empty (the per-parent fixup trace of
any accepted transaction is `fixupLe`-pairwise); a transaction carrying
two fixups into the same parent at decreasing offsets is rejected with
BR_FAILED_REPLY and its buffer is released and freed, so no partially
translated buffer remains installed in the target. -/
theorem binder_fixup_order_rule :
    (∀ (objs : List BObj) (buffer off : Nat) (lopt : Option Nat)
      (m fuel : Nat),
      binder_validate_fixup objs buffer off lopt m fuel = true →
        buffer ∈ fixupChain objs lopt fuel) ∧
    (∀ (objs : List BObj) (sg : Nat) (t : List (Nat × Nat × Nat)),
      binder_translate_loop objs objs 0 sg (none, 0) = .ok t →
        ∀ p, (t.filter (fun e => e.1 == p)).Pairwise fixupLe) ∧
    binder_transaction_translate
      [.ptrObj ⟨false, 0, 0, 32⟩, .ptrObj ⟨true, 0, 16, 0⟩,
        .ptrObj ⟨true, 0, 8, 0⟩] 32 = .failedReplyFreed := by
  refine ⟨?_, ?_, rfl⟩
  · exact fun objs buffer off lopt m fuel h =>
      validate_fixup_mem_chain objs buffer off fuel lopt m h
  · intro objs sg t hok p
    refine (translate_loop_fixup_spec objs objs 0 sg (none, 0) t
      (List.drop_zero objs).symm ?_ ?_ hok).2.2 p
    · intro j f hj
      exact absurd hj (Nat.not_lt_zero j)
    · intro l hl
      simp at hl

/-- Witness for C3's amended theorem, applied to the accepted
transaction of the counterexample: its per-parent fixup trace is
weakly monotone. -/
theorem binder_fixup_order_rule_witness :
    (([((0 : Nat), (0 : Nat), (0 : Nat)), (0, 0, 0)] :
      List (Nat × Nat × Nat)).filter (fun e => e.1 == 0)).Pairwise fixupLe :=
  binder_fixup_order_rule.2.1
    [.ptrObj ⟨false, 0, 0, 0⟩, .fdaObj 0 0 0, .fdaObj 0 0 0] 0
    [(0, 0, 0), (0, 0, 0)] rfl 0

end Binder
